import Mathlib

set_option maxRecDepth 8000

/-!
Verification development for the hexchat-plugins repository
(`xtools.py`, `xhighlights.py`).

The Python sources are shallowly embedded: each Python function that the
claims touch becomes a Lean definition of the same name (where Lean allows
it).  Python dicts are embedded as association lists in insertion order
(CPython dicts preserve insertion order); `collections.deque(maxlen=n)`
becomes a list with a drop-on-overflow append; compiled regular expressions
are embedded as abstract match functions `String → Option MatchInfo` (the
`re` module is an external collaborator — only *which* pattern matches and
the produced group lists matter to the claims, never the regex syntax);
the host chat runtime (`xchat` / `hexchat`) is a record of abstract
functions (`strip`, `hash`).  Timestamps stored in message records
(`%H:%M:%S` strings, compared by the code only with `<` / sorting) are
embedded as `Nat` preserving their chronological order.
-/

namespace XTools

/-- Return codes of the host runtime (`xchat.EAT_ALL` suppresses an event,
`xchat.EAT_NONE` passes it through to the normal display path). -/
inductive Eat where
| ALL : Eat
| NONE : Eat
deriving DecidableEq, Repr

/-- Result of a successful regex search: `group0` is `.group()`, `groups`
is `.groups()` (empty when the pattern has no capture groups). -/
structure MatchInfo where
group0 : String
groups : List String
deriving DecidableEq, Repr

/-- Embedding of a compiled regex's `.search` method. -/
abbrev Matcher := String → Option MatchInfo

/-- Embedding of the value dicts stored in the pattern registries:
`{'index': ..., 'pattern': ...}`. -/
structure PatEntry where
index : Nat
pattern : Matcher

/-- Host runtime services used by the embedded code: `xchat.strip`
(markup stripping) and Python's builtin `hash` on strings. -/
structure Host where
strip : String → String
hashf : String → Int

/-- A pattern registry (`xtools.ignored_nicks`, `xtools.msg_catchers`,
`xtools.msg_filters[...]`): a Python dict from raw pattern text to its
entry, kept in insertion order. -/
abbrev Registry := List (String × PatEntry)

/-- Raw pattern keys of a registry, in dict (insertion) order. -/
def regKeys (reg : Registry) : List String :=
reg.map Prod.fst

/-- Decision procedure for the lexicographic string order (the order
`sorted` uses), routed through `toList` so that it evaluates by kernel
reduction. -/
def strLeDec : DecidableRel (α := String) (· ≤ ·) := fun a b =>
decidable_of_iff (a.toList ≤ b.toList) (String.le_iff_toList_le).symm

/-- Embedding of `sorted(keys)` over a registry's keys (Python sorts
strings by code points, which is exactly `String`'s linear order). -/
def sortedKeys (reg : Registry) : List String :=
@List.insertionSort String (· ≤ ·) strLeDec (regKeys reg)

/-- Position a key receives from `enumerate(sorted(keys))`. -/
def rankOf (reg : Registry) (k : String) : Nat :=
(sortedKeys reg).indexOf k

/-- Embedding of `build_catcher_indexes` / `build_ignored_indexes`:
`for index, msg in enumerate(sorted(keys)): reg[msg]['index'] = index`.
Dict order is untouched; only the stored `index` fields change. -/
def reindex (reg : Registry) : Registry :=
reg.map (fun p => (p.1, ⟨rankOf reg p.1, p.2.pattern⟩))

/-- Loop body of `add_catcher`: skip keys already present, skip pattern
texts that do not compile (`compile` embeds `compile_re`, `none` meaning a
`re.error`), otherwise insert with provisional index `len(dict)`. -/
def addCatcherKey (compile : String → Option Matcher) (reg : Registry) (k : String) :
    Registry :=
if (regKeys reg).contains k then reg
else
  match compile k with
  | none => reg
  | some pat => reg ++ [(k, ⟨reg.length, pat⟩)]

/-- Embedding of `add_catcher` after its argument parsing: insert each
requested pattern, then rebuild the sorted indexes. -/
def add_catcher (compile : String → Option Matcher) (reg : Registry)
    (catchers : List String) : Registry :=
reindex (catchers.foldl (addCatcherKey compile) reg)

/-- Numeric value of a nonempty all-digit character sequence. -/
def digitsVal (ds : List Char) : Option Nat :=
if !ds.isEmpty && ds.all Char.isDigit then
  some (ds.foldl (fun acc c => acc * 10 + (c.toNat - 48)) 0)
else none

/-- Embedding of Python's `int(str)` on decimal literals: an optional
sign followed by digits; anything else raises `ValueError` (`none`). -/
def pyInt? (s : String) : Option Int :=
match s.toList with
| '-' :: ds => (digitsVal ds).map (fun n => -(n : Int))
| '+' :: ds => (digitsVal ds).map (fun n => (n : Int))
| ds => (digitsVal ds).map (fun n => (n : Int))

/-- Embedding of the local `get_key` helper of `remove_catcher`: accept a
literal key, otherwise try `int(kstr)` and look for the first key whose
stored index is `intval - 1`. -/
def get_key (reg : Registry) (kstr : String) : Option String :=
if (regKeys reg).contains kstr then some kstr
else
  match pyInt? kstr with
  | none => none
  | some n => (reg.find? (fun p => ((p.2.index : Int) == n - 1))).map Prod.fst

/-- One iteration of the removal loop of `remove_catcher`: resolve the
argument via `get_key` and pop the resolved key (a failed resolution only
prints an error and removes nothing). -/
def removeKeyStep (acc : Registry × List String) (a : String) : Registry × List String :=
match get_key acc.1 a with
| some k => (acc.1.eraseP (fun p => p.1 == k), acc.2 ++ [k])
| none => acc

/-- Embedding of `remove_catcher` after splitting its argument string:
remove each resolvable argument, then rebuild the sorted indexes.  Returns
the new registry and the list of removed keys. -/
def remove_catcher (reg : Registry) (args : List String) : Registry × List String :=
let r := args.foldl removeKeyStep (reg, [])
(reindex r.1, r.2)

/-- Universal message record built by `add_message` (the `msg` dict). -/
structure MsgRec where
nick : String
time : Nat
date : String
channel : String
type : String
msg : String
matchlist : List String
filtertype : String
deriving DecidableEq, Repr

/-- Per-event host context: current channel and local time/date. -/
structure Ctx where
chan : String
now : Nat
date : String

/-- Embedding of the record construction in `add_message` (the `addfunc`
application is inlined at the call sites). -/
def add_message (ctx : Ctx) (nick msgtext : String) (msgtype : String)
    (matchlist : List String) (filtertype : String) : MsgRec :=
{ nick := nick
  time := ctx.now
  date := ctx.date
  channel := ctx.chan
  type := (msgtype.toLower).replace " " ""
  msg := msgtext
  matchlist := matchlist
  filtertype := filtertype }

/-- The two catcher-filter registries `xtools.msg_filters`
(`{'nicks': {}, 'filters': {}}`). -/
structure MsgFilters where
nicks : Registry
filters : Registry

/-- Characters removed by `remove_mirc_color` before `xchat.strip`. -/
def badchar1 : String := String.mk [Char.ofNat 8, '<']

/-- Second bad character of `remove_mirc_color` (`chr(8)`). -/
def badchar2 : String := String.mk [Char.ofNat 8]

/-- Third bad character of `remove_mirc_color` (`chr(15)`). -/
def badchar3 : String := String.mk [Char.ofNat 15]

/-- Embedding of `xtools.remove_mirc_color`: delete the bad characters and
hand the rest to `xchat.strip`. -/
def remove_mirc_color (host : Host) (text : String) : String :=
host.strip (((text.replace badchar1 "").replace badchar2 "").replace badchar3 "")

/-- Embedding of `is_filtered_msg`: nick filters run against the
color-stripped nick, message filters against the raw message text. -/
def is_filtered_msg (host : Host) (fs : MsgFilters) (m : MsgRec) : Bool :=
(fs.nicks.any (fun p => (p.2.pattern (remove_mirc_color host m.nick)).isSome))
|| (fs.filters.any (fun p => (p.2.pattern m.msg).isSome))

/-- Embedding of `generate_msg_id`:
`hash(strip(channel) + strip(nick) + strip(msg))`. -/
def generate_msg_id (host : Host) (m : MsgRec) : Int :=
host.hashf (host.strip m.channel ++ host.strip m.nick ++ host.strip m.msg)

/-- The caught-messages cache `xtools.caught_msgs`: a dict keyed by the
generated message id, in insertion order. -/
abbrev Caught := List (Int × MsgRec)

/-- First element of `sorted(caught_msgs.keys(), key=time)` on a nonempty
cache: the earliest-inserted entry with minimal stored time (Python's sort
is stable over dict iteration order). -/
def oldestEntry (e : Int × MsgRec) (rest : Caught) : Int × MsgRec :=
rest.foldl (fun acc x => if x.2.time < acc.2.time then x else acc) e

/-- Eviction step of `add_caught_msg`: pop the first key of the cache in
oldest-time order. -/
def eraseOldest (caught : Caught) : Caught :=
match caught with
| [] => []
| e :: rest => (e :: rest).eraseP (fun x => x.1 == (oldestEntry e rest).1)

/-- Capacity of both bounded caches (`max_caught_msgs`,
`max_ignored_msgs`). -/
def maxCaughtMsgs : Nat := 250

/-- Embedding of `add_caught_msg`: drop filtered messages, drop duplicate
ids, evict the oldest entry when at or over capacity, insert at the end.
Returns the new cache and whether an insertion happened (the Python
return value). -/
def add_caught_msg (host : Host) (fs : MsgFilters) (caught : Caught) (m : MsgRec) :
    Caught × Bool :=
if is_filtered_msg host fs m then (caught, false)
else
  let msgid := generate_msg_id host m
  match caught.find? (fun e => e.1 == msgid) with
  | some _ => (caught, false)
  | none =>
    let caught' := if maxCaughtMsgs ≤ caught.length then eraseOldest caught else caught
    (caught' ++ [(msgid, m)], true)

/-- Append to a `collections.deque(maxlen=cap)`: when full, the oldest
element is silently dropped. -/
def dequeAppend (cap : Nat) (q : List MsgRec) (x : MsgRec) : List MsgRec :=
(q ++ [x]).drop (q.length + 1 - cap)

/-- Embedding of `matchobj.groups() or [matchobj.group()]`, applied to the
result of a successful search. -/
def matchlistOf (m : MatchInfo) : List String :=
if m.groups.isEmpty then [m.group0] else m.groups

/-- Match list recorded for a pattern that `filter_chanmsg` found to
match (`search` is known to succeed at every use site). -/
def searchList (pat : Matcher) (s : String) : List String :=
match pat s with
| some m => matchlistOf m
| none => []

/-- Embedding of `' '.join(word[1:]).strip('@')`: strip the given
character from both ends. -/
def stripChar (c : Char) (s : String) : String :=
String.mk (((s.toList.dropWhile (· == c)).reverse.dropWhile (· == c)).reverse)

/-- Python's `str.strip()`: remove whitespace from both ends. -/
def pyStrip (s : String) : String :=
String.mk (((s.toList.dropWhile Char.isWhitespace).reverse.dropWhile Char.isWhitespace).reverse)

/-- Message text reconstruction of `filter_chanmsg`:
`' '.join(word[1:]).strip('@').strip()`. -/
def cleanMsg (rest : List String) : String :=
pyStrip (stripChar '@' (String.intercalate " " rest))

/-- Global mutable state of the xtools classification pipeline. -/
structure ChanState where
ignored_nicks : Registry
msg_catchers : Registry
msg_filters : MsgFilters
ignored_msgs : List MsgRec
caught_msgs : Caught

/-- Embedding of `filter_chanmsg`: first the ignore loop over
`ignored_nicks` (dict order, first match wins, event eaten), then the
catch loop over `msg_catchers` (dict order, first match wins, event passed
through), else pass through untouched.  `nick` is `word[0]`, `rest` is
`word[1:]`, `userdata` the event name. -/
def filter_chanmsg (host : Host) (ctx : Ctx) (st : ChanState) (nick : String)
    (rest : List String) (userdata : String) : ChanState × Eat :=
let msg := cleanMsg rest
match st.ignored_nicks.find? (fun p => (p.2.pattern nick).isSome) with
| some p =>
  let r := add_message ctx nick msg userdata (searchList p.2.pattern nick) "nick"
  ({ st with ignored_msgs := dequeAppend maxCaughtMsgs st.ignored_msgs r }, Eat.ALL)
| none =>
  match st.msg_catchers.find? (fun p => (p.2.pattern msg).isSome) with
  | some p =>
    let r := add_message ctx nick msg userdata (searchList p.2.pattern msg) "nick"
    ({ st with
        caught_msgs := (add_caught_msg host st.msg_filters st.caught_msgs r).1 },
      Eat.NONE)
  | none => (st, Eat.NONE)

/-- Registry re-ordered by stored index, as the spec's "patterns are tried
in ascending index order" prescribes.  This definition follows the SPEC's
words, not the source; it exists only to be compared with
`filter_chanmsg`. -/
def sortByIndex (reg : Registry) : Registry :=
List.insertionSort (fun a b => a.2.index ≤ b.2.index) reg

/-- Spec-mandated variant of `filter_chanmsg` in which each registry is
consulted in ascending stored-index order.  This definition follows the
SPEC's words ("patterns are tried in ascending index order"), to be
compared with the source's `filter_chanmsg`. -/
def filter_chanmsg_specOrder (host : Host) (ctx : Ctx) (st : ChanState) (nick : String)
    (rest : List String) (userdata : String) : ChanState × Eat :=
let msg := cleanMsg rest
match (sortByIndex st.ignored_nicks).find? (fun p => (p.2.pattern nick).isSome) with
| some p =>
  let r := add_message ctx nick msg userdata (searchList p.2.pattern nick) "nick"
  ({ st with ignored_msgs := dequeAppend maxCaughtMsgs st.ignored_msgs r }, Eat.ALL)
| none =>
  match (sortByIndex st.msg_catchers).find? (fun p => (p.2.pattern msg).isSome) with
  | some p =>
    let r := add_message ctx nick msg userdata (searchList p.2.pattern msg) "nick"
    ({ st with
        caught_msgs := (add_caught_msg host st.msg_filters st.caught_msgs r).1 },
      Eat.NONE)
  | none => (st, Eat.NONE)

/-- Embedding of `clear_filters(fornick=False)`: clear the selected
sub-registry; report `False` (and change nothing) when it is already
empty. -/
def clear_filters (st : MsgFilters) (fornick : Bool) : MsgFilters × Bool :=
if fornick then
  if st.nicks.isEmpty then (st, false) else ({ st with nicks := [] }, true)
else
  if st.filters.isEmpty then (st, false) else ({ st with filters := [] }, true)

/-- Embedding of `build_filter_indexes`: reindex both sub-registries. -/
def build_filter_indexes (st : MsgFilters) : MsgFilters :=
{ nicks := reindex st.nicks, filters := reindex st.filters }

/-- Loop body of `add_filter`: like `addCatcherKey`, except that the
provisional index is `len(xtools.msg_catchers)` (sic — the source reads
the CATCHER dict's length here), passed in as `catchersLen`. -/
def addFilterKey (compile : String → Option Matcher) (catchersLen : Nat)
    (reg : Registry) (k : String) : Registry :=
if (regKeys reg).contains k then reg
else
  match compile k with
  | none => reg
  | some pat => reg ++ [(k, ⟨catchersLen, pat⟩)]

/-- Embedding of `add_filter` after argument parsing. -/
def add_filter (compile : String → Option Matcher) (catchersLen : Nat)
    (st : MsgFilters) (fltrs : List String) (fornick : Bool) : MsgFilters :=
if fornick then
  build_filter_indexes { st with nicks := fltrs.foldl (addFilterKey compile catchersLen) st.nicks }
else
  build_filter_indexes { st with filters := fltrs.foldl (addFilterKey compile catchersLen) st.filters }

/-- Embedding of `remove_filter` after argument splitting. -/
def remove_filter (st : MsgFilters) (args : List String) (fornick : Bool) :
    MsgFilters × List String :=
if fornick then
  let r := args.foldl removeKeyStep (st.nicks, [])
  (build_filter_indexes { st with nicks := r.1 }, r.2)
else
  let r := args.foldl removeKeyStep (st.filters, [])
  (build_filter_indexes { st with filters := r.1 }, r.2)

/-- One user-level mutation of the catcher registry: an `add_catcher`
call or a `remove_catcher` call (with already-parsed argument lists). -/
inductive RegOp where
| addPatterns : List String → RegOp
| removePatterns : List String → RegOp

/-- Apply one registry operation. -/
def applyOp (compile : String → Option Matcher) (reg : Registry) : RegOp → Registry
| RegOp.addPatterns ks => add_catcher compile reg ks
| RegOp.removePatterns args => (remove_catcher reg args).1

/-- Run a sequence of add/remove calls against the initially empty
catcher registry. -/
def runOps (compile : String → Option Matcher) (ops : List RegOp) : Registry :=
ops.foldl (applyOp compile) []

/-- Parsed flags and positional arguments of the `/CATCHFILTER`
command. -/
structure CFArgs where
clear : Bool
help : Bool
list : Bool
nicks : Bool
remove : Bool
tab : Bool
cmdargs : List String

/-- Embedding of the state-relevant dispatch of `cmd_catchfilter`
(print-only branches leave the registries unchanged).  Note the `--clear`
branch calls `clear_filters()` with its DEFAULT `fornick=False`, ignoring
the `--nicks` flag, exactly as the source does. -/
def cmd_catchfilter (compile : String → Option Matcher) (catchersLen : Nat)
    (a : CFArgs) (st : MsgFilters) : MsgFilters :=
if a.help then st
else if a.clear then (clear_filters st false).1
else if a.list then st
else if a.remove then (remove_filter st a.cmdargs a.nicks).1
else if !a.cmdargs.isEmpty then add_filter compile catchersLen st a.cmdargs a.nicks
else st

end XTools

namespace XHighlights

/-- Result of `.match` on a compiled custom pattern: `.group()`,
`.groups()` and `.groupdict()`. -/
structure CMatch where
group0 : String
groups : List String
groupdict : List (String × String)

/-- Embedding of a compiled custom pattern's `.match` method. -/
abbrev CMatcher := String → Option CMatch

/-- Embedding of a Python format template string: its three ways of being
applied in `highlight_custom`, each returning `none` when the `format`
call raises (missing named group, positional index out of range, bad
spec).  `fmtNamed` is `template.format(**groupdict)` and `fmtPos` is
`template.format(*groups)`, whose failures `highlight_custom` catches;
`fmtSimple` is `template.format(word)` of the single-word path, whose
failure is NOT caught there and escapes the callback. -/
structure Template where
fmtNamed : List (String × String) → Option String
fmtPos : List String → Option String
fmtSimple : String → Option String

/-- Embedding of the custom-pattern dicts stored in `Codes.custom`. -/
structure CustomPat where
pattern : CMatcher
patterntext : String
stylecodes : String
style : String
template : Template

/-- Reset code `Codes.normal` (`color_code('reset')` = `'\x0f'`). -/
def CodesNormal : String := String.mk [Char.ofNat 15]

/-- Own-message code `Codes.ownmsg` (`color_code('darkgrey')` =
`'\x03' + '14'`). -/
def CodesOwnmsg : String := String.mk [Char.ofNat 3] ++ "14"

/-- Mutable module state of xhighlights: the `EMITTING` recursion-guard
flag, the custom pattern list `Codes.custom`, and the two settable style
codes `Codes.link` / `Codes.nick`. -/
structure HLState where
emitting : Bool
custom : List CustomPat
linkCode : String
nickCode : String

/-- Host context consulted by `message_filter`: the channel's user list,
the user's own nick, the compiled `link_re`'s `.search` (abstract — its
regex is external), and the `remove_mirc_color` regex substitution
(likewise an external `re` call). -/
structure Ctx where
users : List String
usernick : String
linkMatch : String → Bool
stripMirc : String → String

/-- An incoming print event: the hooked event name (`userdata`), `word[0]`
(nick), `word[1]` (message text) and any further `word` entries. -/
structure Ev where
userdata : String
nick : String
msg : String
extra : List String

/-- Outcome of a `message_filter` call: the new module state, the eat code
the host acts on, the argument list handed to `context.emit_print` when a
re-emission happened, and whether an uncaught Python exception escaped
the callback (the host prints the traceback and treats the event as not
eaten, so the original event still renders). -/
structure MFResult where
state : HLState
eat : XTools.Eat
emitted : Option (List String)
raised : Bool

/-- Embedding of `emit_highlighted`: set the `EMITTING` flag, ask the host
to emit (the host may synchronously deliver events back, `hostEmit` being
everything it does), clear the flag, return `EAT_ALL`. -/
def emit_highlighted (hostEmit : HLState → HLState) (st : HLState)
    (args : List String) : MFResult :=
let st1 := { st with emitting := true }
let st2 := hostEmit st1
⟨{ st2 with emitting := false }, XTools.Eat.ALL, some args, false⟩

/-- Embedding of `highlight_custom`: rewrite a matching word through the
pattern's template (named groups first, then positional groups, then the
whole word), wrapping the result in the pattern's style codes.  A format
failure in the named or positional branch is caught (`except`) and the
word is returned UNCHANGED; the single-word branch's `format` call is not
guarded in the source, so its failure propagates (`none`). -/
def highlight_custom (w : String) (p : CustomPat) : Option String :=
match p.pattern w with
| none => some w
| some m =>
  if !m.groupdict.isEmpty then
    match p.template.fmtNamed m.groupdict with
    | some s => some (p.stylecodes ++ s ++ CodesNormal)
    | none => some w
  else if !m.groups.isEmpty then
    match p.template.fmtPos m.groups with
    | some s => some (p.stylecodes ++ s ++ CodesNormal)
    | none => some w
  else (p.template.fmtSimple w).map (fun s => p.stylecodes ++ s ++ CodesNormal)

/-- Styles understood by `highlight_word`. -/
inductive HLStyle where
| link : HLStyle
| nick : HLStyle

/-- Embedding of `highlight_word`: wrap a word in the style code for links
or nicks, with the alternate own-message reset palette. -/
def highlight_word (st : HLState) (s : String) (style : HLStyle) (ownmsg : Bool) :
    String :=
let colornormal := if ownmsg then CodesOwnmsg else CodesNormal
let resetcode := if ownmsg then CodesNormal ++ colornormal else colornormal
let stylecode := match style with
  | HLStyle.link => st.linkCode
  | HLStyle.nick => st.nickCode
stylecode ++ s ++ resetcode

/-- Python's `needle in haystack` substring test. -/
def strContains (hay needle : String) : Bool :=
decide (needle.toList <:+: hay.toList)

/-- Python's `s[:-1]` (drop the final character). -/
def dropLast1 (s : String) : String :=
String.mk s.toList.dropLast

/-- Helper for `splitSp`: accumulate the current word (reversed) while
scanning. -/
def splitSpAux : List Char → List Char → List String
| [], acc => [String.mk acc.reverse]
| c :: rest, acc =>
  if c = ' ' then String.mk acc.reverse :: splitSpAux rest []
  else splitSpAux rest (c :: acc)

/-- Python's `msg.split(' ')`: split at every single space, preserving
empty tokens for multi-space runs. -/
def splitSp (s : String) : List String :=
splitSpAux s.toList []

/-- The `normalmsg` flag of `message_filter`:
`not (userdata and 'Msg Hilight' in userdata)`. -/
def normalMsg (ev : Ev) : Bool :=
!(strContains ev.userdata "Msg Hilight")

/-- The `userownmsg` flag of `message_filter`: the color-stripped sender
nick equals the user's own nick. -/
def ownMsg (ctx : Ctx) (ev : Ev) : Bool :=
ctx.usernick == ctx.stripMirc ev.nick

/-- Loop body of `message_filter` for one word token: custom patterns
first (list order, first match wins, rewritten token still eligible for
link styling), then link detection, then participant-nick detection.
Returns the (possibly rewritten) token and whether the `highlighted` flag
was raised for it. -/
def processWord (ctx : Ctx) (st : HLState) (normalmsg userownmsg : Bool)
    (w : String) : Option (String × Bool) :=
let ownnick := (w == ctx.usernick) || (dropLast1 w == ctx.usernick)
let nickword := ctx.users.contains w || ctx.users.contains (dropLast1 w)
let step1 : Option (String × Bool) :=
  match st.custom.find? (fun p => (p.pattern w).isSome) with
  | some p => (highlight_custom w p).map (fun w1 => (w1, true))
  | none => some (w, false)
match step1 with
| none => none
| some (w1, hl1) =>
  if ctx.linkMatch w1 then
    some (highlight_word st w1 HLStyle.link userownmsg, true)
  else if normalmsg && !ownnick && nickword then
    some (highlight_word st w1 HLStyle.nick userownmsg, true)
  else some (w1, hl1)

/-- Tokenized processing of one event's message text by `message_filter`
(split on single spaces, per-token rewrite plus highlighted flag); the
tokens are processed left to right and an uncaught format error aborts
the loop (`none`). -/
def mfTokens (ctx : Ctx) (st : HLState) (ev : Ev) : Option (List (String × Bool)) :=
(splitSp ev.msg).mapM (processWord ctx st (normalMsg ev) (ownMsg ctx ev))

/-- Embedding of `message_filter`: pass self-caused events through
untouched while `EMITTING` is set; otherwise process every word token and
re-emit through `emit_highlighted` exactly when the `highlighted` flag was
raised, else return `EAT_NONE` with nothing emitted.  When a token's
simple-branch template format raises, the exception escapes the callback
(`raised`): nothing is emitted, the state is unchanged, and the host
renders the original event. -/
def message_filter (hostEmit : HLState → HLState) (ctx : Ctx) (st : HLState)
    (ev : Ev) : MFResult :=
if st.emitting then ⟨st, XTools.Eat.NONE, none, false⟩
else
  match mfTokens ctx st ev with
  | none => ⟨st, XTools.Eat.NONE, none, true⟩
  | some toks =>
    if toks.any Prod.snd then
      emit_highlighted hostEmit st
        (ev.userdata :: ev.nick :: String.intercalate " " (toks.map Prod.fst) :: ev.extra)
    else ⟨st, XTools.Eat.NONE, none, false⟩

end XHighlights

/-! Concrete data for witnesses and counterexamples. -/

/-- Concrete host services for witnesses: identity markup stripping and a
length-based string hash. -/
def witnessHost : XTools.Host := ⟨id, fun s => (s.length : Int)⟩

/-- Concrete message record for the idempotence witness. -/
def witnessMsg : XTools.MsgRec := ⟨"joe", 1, "d", "#c", "", "hello", [], "nick"⟩

/-- Concrete matcher for witnesses: succeeds when its needle is a
substring of the input (match list is the needle, no groups). -/
def witnessSubstrM (needle : String) : XTools.Matcher :=
fun s => if decide (needle.toList <:+: s.toList) then some ⟨needle, []⟩ else none

/-- Concrete matcher for witnesses: succeeds when its needle is a prefix
of the input (the `"^spam.*"` scenario pattern). -/
def witnessPrefM (needle : String) : XTools.Matcher :=
fun s => if decide (needle.toList <+: s.toList) then some ⟨needle, []⟩ else none

/-- Ignored-participants registry holding the `"^spam.*"` scenario
pattern. -/
def witnessIgnoreReg : XTools.Registry := [("^spam.*", ⟨0, witnessPrefM "spam"⟩)]

/-- Pipeline state for the ignore-scenario witness: the spam ignore
pattern plus a catcher that also matches the incoming text. -/
def witnessIgnoreState : XTools.ChanState :=
⟨witnessIgnoreReg, [("ab", ⟨0, witnessSubstrM "ab"⟩)], ⟨[], []⟩, [], []⟩

/-- Concrete event context for witnesses. -/
def witnessCtx : XTools.Ctx := ⟨"#chan", 5, "10-12-2026"⟩

/-- Filter state for the C3 witness: content-catcher `"urgent"` and
content-filter `"test"` registered. -/
def witnessFilterState : XTools.ChanState :=
⟨[], [("urgent", ⟨0, witnessSubstrM "urgent"⟩)],
  ⟨[], [("test", ⟨0, witnessSubstrM "test"⟩)]⟩, [], []⟩

/-- Compilation function for the order counterexample: every pattern text
compiles, to a substring matcher. -/
def cx4compile : String → Option XTools.Matcher := fun k => some (witnessSubstrM k)

/-- Registry obtained by adding catcher `"b"` and then catcher `"a"`:
dict order is `[b, a]` while the sorted renumbering gives `a` index 0 and
`b` index 1. -/
def cx4reg : XTools.Registry := XTools.add_catcher cx4compile [] ["b", "a"]

/-- Pipeline state for the order counterexample. -/
def cx4st : XTools.ChanState := ⟨[], cx4reg, ⟨[], []⟩, [], []⟩

/-- Catcher registry state for the stored-order witness: `"x"` stored
first, `"y"` second. -/
def witnessOrderState : XTools.ChanState :=
⟨[], [("x", ⟨0, witnessSubstrM "x"⟩), ("y", ⟨1, witnessSubstrM "y"⟩)], ⟨[], []⟩, [], []⟩

/-- Parsed `--clear --nicks` invocation for the C10 witness. -/
def witnessCF : XTools.CFArgs := ⟨true, false, false, true, false, false, []⟩

/-- Filter registries (both nonempty) for the C10 witness. -/
def witnessFS : XTools.MsgFilters :=
⟨[("n", ⟨0, witnessSubstrM "n"⟩)], [("f", ⟨0, witnessSubstrM "f"⟩)]⟩

/-- Registry obtained by adding catchers `"2"`, `"b"`, `"c"`: pattern
`"b"` receives sorted index 1, hence 1-based display index 2 — but the
literal key `"2"` is also present. -/
def cx7reg : XTools.Registry := XTools.add_catcher cx4compile [] ["2", "b", "c"]

/-- Reindexed two-entry registry for the C7 witness: `"a"` at index 0,
`"c"` at index 1 (display index 2), and `"2"` not a key. -/
def cx7aReg : XTools.Registry :=
[("a", ⟨0, witnessSubstrM "a"⟩), ("c", ⟨1, witnessSubstrM "c"⟩)]

/-- Module state with the `EMITTING` flag raised, for the guard
witness. -/
def witnessHLState : XHighlights.HLState := ⟨true, [], "L", "N"⟩

/-- Host context for the xhighlights witnesses. -/
def witnessHCtx : XHighlights.Ctx := ⟨[], "me", fun _ => false, id⟩

/-- Incoming event for the xhighlights witnesses. -/
def witnessEv : XHighlights.Ev := ⟨"Channel Message", "alice", "hi", []⟩

/-- Custom matcher for the C9 counterexample: matches the word `"x"` with
a named capture group `a` (and no positional-only groups). -/
def cx9matcher : XHighlights.CMatcher :=
fun s => if s == "x" then some ⟨"x", [], [("a", "x")]⟩ else none

/-- Template embedding `"{b}"`: every `format` call raises, since the
substituted values never carry the key `b` — `format(**groupdict)` is
`KeyError` unless the pattern binds `b`, `format(*groups)` and
`format(word)` are `KeyError` always.  This is exactly a template that
`add_custom_pattern`'s validation accepts (its probe substitutes `b` by
name). -/
def cx9template : XHighlights.Template :=
⟨fun gd => gd.lookup "b", fun _ => none, fun _ => none⟩

/-- Custom pattern entry for the C9 counterexample: the `"{b}"` template
on a pattern with named group `a`, so the guarded named branch fails and
the word is kept unchanged. -/
def cx9pat : XHighlights.CustomPat := ⟨cx9matcher, "(?P<a>x)", "S", "red", cx9template⟩

/-- Module state holding only the failing custom pattern. -/
def cx9st : XHighlights.HLState := ⟨false, [cx9pat], "L", "N"⟩

/-- Event whose one-word text `"x"` matches the failing custom
pattern. -/
def cx9ev : XHighlights.Ev := ⟨"Channel Message", "alice", "x", []⟩

/-- Custom pattern for the crash side of the C9 witness: the same `"{b}"`
template on a GROUP-LESS pattern matching `"x"`, so `highlight_custom`
reaches the unguarded simple branch and the format error escapes the
callback. -/
def cx9crashPat : XHighlights.CustomPat :=
⟨fun s => if s == "x" then some ⟨"x", [], []⟩ else none, "x", "S", "red", cx9template⟩

/-- Module state holding only the crashing custom pattern. -/
def cx9crashSt : XHighlights.HLState := ⟨false, [cx9crashPat], "L", "N"⟩

/-- State for the amended-C9 witness: one custom pattern matching the
word `"hi"` whose simple `"{}"` template rewrites it (and whose guarded
branches are never reached, the pattern having no groups). -/
def witnessHL9 : XHighlights.HLState :=
⟨false, [⟨fun s => if s == "hi" then some ⟨"hi", [], []⟩ else none, "hi", "S", "red",
  ⟨fun _ => none, fun _ => none, fun w => some w⟩⟩], "L", "N"⟩

/-- Concrete sequence of 251 distinct ignored-message records for the
capacity witness. -/
def witnessMsgs251 : List XTools.MsgRec :=
(List.range 251).map (fun n => ⟨s!"nick{n}", n, "", "#chan", "", s!"msg{n}", [], "nick"⟩)

namespace XTools

/-! Helper lemmas about the bounded caches. -/

theorem dequeAppend_foldl (cap : Nat) (hcap : 0 < cap) :
    ∀ (msgs q : List MsgRec), q.length ≤ cap →
      msgs.foldl (dequeAppend cap) q = (q ++ msgs).drop (q.length + msgs.length - cap) := by
  intro msgs
  induction msgs with
  | nil =>
    intro q hq
    simp [Nat.sub_eq_zero_of_le hq]
  | cons x xs ih =>
    intro q hq
    have hd : q.length + 1 - cap ≤ (q ++ [x]).length := by
      simp only [List.length_append, List.length_cons, List.length_nil]
      omega
    have hlen : (dequeAppend cap q x).length ≤ cap := by
      simp only [dequeAppend, List.length_drop, List.length_append, List.length_cons,
        List.length_nil]
      omega
    have step := ih (dequeAppend cap q x) hlen
    have h1 : (x :: xs).foldl (dequeAppend cap) q
        = xs.foldl (dequeAppend cap) (dequeAppend cap q x) := rfl
    rw [h1, step]
    simp only [dequeAppend]
    rw [← List.drop_append_of_le_length hd, List.drop_drop]
    have h2 : q ++ x :: xs = (q ++ [x]) ++ xs := by simp
    rw [h2]
    congr 1
    simp only [List.length_drop, List.length_append, List.length_cons, List.length_nil]
    omega

theorem dequeAppend_foldl_nil (msgs : List MsgRec) :
    msgs.foldl (dequeAppend 250) [] = msgs.drop (msgs.length - 250) := by
  have h := dequeAppend_foldl 250 (by norm_num) msgs [] (by simp)
  simpa using h

theorem oldestEntry_spec (e : Int × MsgRec) (rest : Caught) :
    oldestEntry e rest ∈ e :: rest
    ∧ ∀ x ∈ e :: rest, (oldestEntry e rest).2.time ≤ x.2.time := by
  induction rest generalizing e with
  | nil => simp [oldestEntry]
  | cons y ys ih =>
    have hfold : oldestEntry e (y :: ys)
        = oldestEntry (if y.2.time < e.2.time then y else e) ys := rfl
    obtain ⟨ihmem, ihmin⟩ := ih (if y.2.time < e.2.time then y else e)
    have hfe : (if y.2.time < e.2.time then y else e).2.time ≤ e.2.time := by
      by_cases hc : y.2.time < e.2.time
      · simp only [hc, if_true]
        exact le_of_lt hc
      · simp [hc]
    have hfy : (if y.2.time < e.2.time then y else e).2.time ≤ y.2.time := by
      by_cases hc : y.2.time < e.2.time
      · simp [hc]
      · simp only [hc, if_false]
        exact le_of_not_lt hc
    have hminf : (oldestEntry (if y.2.time < e.2.time then y else e) ys).2.time
        ≤ (if y.2.time < e.2.time then y else e).2.time :=
      ihmin _ (List.mem_cons_self _ _)
    constructor
    · rw [hfold]
      rcases List.mem_cons.mp ihmem with h | h
      · rw [h]
        by_cases hc : y.2.time < e.2.time <;> simp [hc]
      · exact List.mem_cons_of_mem _ (List.mem_cons_of_mem _ h)
    · intro x hx
      rw [hfold]
      rcases List.mem_cons.mp hx with h | h
      · rw [h]
        exact le_trans hminf hfe
      · rcases List.mem_cons.mp h with h' | h'
        · rw [h']
          exact le_trans hminf hfy
        · exact ihmin x (List.mem_cons_of_mem _ h')

theorem eraseOldest_length (caught : Caught) (h : caught ≠ []) :
    (eraseOldest caught).length + 1 = caught.length := by
  match caught with
  | [] => exact absurd rfl h
  | e :: rest =>
    have hmem := (oldestEntry_spec e rest).1
    have hpa : (fun x => x.1 == (oldestEntry e rest).1) (oldestEntry e rest) = true := by
      simp
    simpa [eraseOldest] using List.length_eraseP_add_one hmem hpa

theorem add_caught_msg_length_le (host : Host) (fs : MsgFilters) (caught : Caught)
    (m : MsgRec) (h : caught.length ≤ 250) :
    ((add_caught_msg host fs caught m).1).length ≤ 250 := by
  by_cases hf : is_filtered_msg host fs m
  · simp [add_caught_msg, hf, h]
  · rcases hfind : caught.find? (fun e => e.1 == generate_msg_id host m) with _ | e
    · have hres : (add_caught_msg host fs caught m).1
          = (if maxCaughtMsgs ≤ caught.length then eraseOldest caught else caught)
            ++ [(generate_msg_id host m, m)] := by
        simp [add_caught_msg, hf, hfind]
      rw [hres, List.length_append]
      have hm : maxCaughtMsgs = 250 := rfl
      by_cases hcap : maxCaughtMsgs ≤ caught.length
      · have hne : caught ≠ [] := by
          intro hnil
          rw [hnil] at hcap
          rw [hm] at hcap
          simp at hcap
        have hlen := eraseOldest_length caught hne
        rw [if_pos hcap]
        rw [hm] at hcap
        simp only [List.length_cons, List.length_nil]
        omega
      · rw [if_neg hcap]
        rw [hm] at hcap
        simp only [List.length_cons, List.length_nil]
        omega
    · simp [add_caught_msg, hf, hfind, h]

theorem caughtFold_length_le (host : Host) (fs : MsgFilters) (items : List MsgRec) :
    ∀ (c : Caught), c.length ≤ 250 →
      ((items.foldl (fun c m => (add_caught_msg host fs c m).1) c).length ≤ 250) := by
  induction items with
  | nil => intro c hc; simpa using hc
  | cons x xs ih =>
    intro c hc
    exact ih _ (add_caught_msg_length_le host fs c x hc)

/-! Helper lemmas about registry reindexing. -/

theorem regKeys_reindex (reg : Registry) : regKeys (reindex reg) = regKeys reg := by
  rw [reindex, regKeys, List.map_map]
  rfl

theorem sortedKeys_perm (reg : Registry) : (sortedKeys reg).Perm (regKeys reg) :=
  @List.perm_insertionSort String (· ≤ ·) strLeDec (regKeys reg)

theorem sortedKeys_sorted (reg : Registry) : List.Sorted (· ≤ ·) (sortedKeys reg) :=
  @List.sorted_insertionSort String (· ≤ ·) strLeDec _ _ (regKeys reg)

theorem sortedKeys_nodup (reg : Registry) (h : (regKeys reg).Nodup) :
    (sortedKeys reg).Nodup :=
  ((sortedKeys_perm reg).nodup_iff).mpr h

theorem rankOf_inj (reg : Registry) (h : (regKeys reg).Nodup) (k k' : String)
    (hk : k ∈ regKeys reg) (hk' : k' ∈ regKeys reg)
    (heq : rankOf reg k = rankOf reg k') : k = k' := by
  have h1 : k ∈ sortedKeys reg := (sortedKeys_perm reg).mem_iff.mpr hk
  have h2 : k' ∈ sortedKeys reg := (sortedKeys_perm reg).mem_iff.mpr hk'
  exact (List.indexOf_inj h1 h2).mp heq

theorem rankOf_lt_iff (reg : Registry) (h : (regKeys reg).Nodup) (k k' : String)
    (hk : k ∈ regKeys reg) (hk' : k' ∈ regKeys reg) :
    k < k' ↔ rankOf reg k < rankOf reg k' := by
  have hsort : List.Sorted (· < ·) (sortedKeys reg) :=
    (sortedKeys_sorted reg).lt_of_le (sortedKeys_nodup reg h)
  have h1 : k ∈ sortedKeys reg := (sortedKeys_perm reg).mem_iff.mpr hk
  have h2 : k' ∈ sortedKeys reg := (sortedKeys_perm reg).mem_iff.mpr hk'
  have hl1 : rankOf reg k < (sortedKeys reg).length := List.indexOf_lt_length.mpr h1
  have hl2 : rankOf reg k' < (sortedKeys reg).length := List.indexOf_lt_length.mpr h2
  have e1 : (sortedKeys reg).get ⟨rankOf reg k, hl1⟩ = k := List.indexOf_get hl1
  have e2 : (sortedKeys reg).get ⟨rankOf reg k', hl2⟩ = k' := List.indexOf_get hl2
  have hmono : StrictMono (sortedKeys reg).get := hsort.get_strictMono
  constructor
  · intro hlt
    by_contra hnot
    push_neg at hnot
    rcases Nat.lt_or_ge (rankOf reg k') (rankOf reg k) with hlt2 | hge
    · have hgl := hmono (show (⟨rankOf reg k', hl2⟩ : Fin _) < ⟨rankOf reg k, hl1⟩ from hlt2)
      rw [e1, e2] at hgl
      exact absurd hlt (not_lt_of_lt hgl)
    · have heq : rankOf reg k = rankOf reg k' := le_antisymm hge hnot
      have := rankOf_inj reg h k k' hk hk' heq
      subst this
      exact lt_irrefl k hlt
  · intro hlt
    have hgl := hmono (show (⟨rankOf reg k, hl1⟩ : Fin _) < ⟨rankOf reg k', hl2⟩ from hlt)
    rw [e1, e2] at hgl
    exact hgl

theorem reindex_indexes (reg : Registry) :
    (reindex reg).map (fun p => p.2.index) = (regKeys reg).map (rankOf reg) := by
  rw [reindex, List.map_map, regKeys, List.map_map]
  rfl

theorem map_rankOf_sortedKeys (reg : Registry) (h : (regKeys reg).Nodup) :
    (sortedKeys reg).map (rankOf reg) = List.range (sortedKeys reg).length := by
  apply List.ext_getElem
  · simp
  · intro i h1 h2
    simp only [List.getElem_map, List.getElem_range]
    exact List.indexOf_getElem (sortedKeys_nodup reg h) i (by simpa using h1)

theorem reindex_perm_range (reg : Registry) (h : (regKeys reg).Nodup) :
    ((reindex reg).map (fun p => p.2.index)).Perm (List.range reg.length) := by
  rw [reindex_indexes]
  have hperm : ((regKeys reg).map (rankOf reg)).Perm ((sortedKeys reg).map (rankOf reg)) :=
    ((sortedKeys_perm reg).map _).symm
  rw [map_rankOf_sortedKeys reg h] at hperm
  have hlen : (sortedKeys reg).length = reg.length := by
    rw [(sortedKeys_perm reg).length_eq]
    simp [regKeys]
  rwa [hlen] at hperm

theorem reindex_mem (reg : Registry) (p : String × PatEntry) (hp : p ∈ reindex reg) :
    p.1 ∈ regKeys reg ∧ p.2.index = rankOf reg p.1 := by
  rw [reindex] at hp
  obtain ⟨q, hq, rfl⟩ := List.mem_map.mp hp
  refine ⟨?_, rfl⟩
  show q.1 ∈ regKeys reg
  exact List.mem_map_of_mem Prod.fst hq

theorem reindex_order_iff (reg : Registry) (h : (regKeys reg).Nodup) :
    ∀ p ∈ reindex reg, ∀ q ∈ reindex reg, (p.1 < q.1 ↔ p.2.index < q.2.index) := by
  intro p hp q hq
  obtain ⟨hp1, hp2⟩ := reindex_mem reg p hp
  obtain ⟨hq1, hq2⟩ := reindex_mem reg q hq
  rw [hp2, hq2]
  exact rankOf_lt_iff reg h p.1 q.1 hp1 hq1

/-! Key-uniqueness is preserved by every registry operation. -/

theorem addCatcherKey_nodup (compile : String → Option Matcher) (reg : Registry)
    (k : String) (h : (regKeys reg).Nodup) :
    (regKeys (addCatcherKey compile reg k)).Nodup := by
  unfold addCatcherKey
  split
  · exact h
  next hc =>
    split
    · exact h
    · have hk : k ∉ regKeys reg := by
        intro hmem
        exact hc (by simpa using hmem)
      have hkeys : regKeys (reg ++ [(k, ⟨reg.length, by assumption⟩)]) = regKeys reg ++ [k] := by
        simp [regKeys]
      rw [hkeys, List.nodup_append]
      exact ⟨h, List.nodup_singleton k, by simpa using hk⟩

theorem foldl_addCatcherKey_nodup (compile : String → Option Matcher) (ks : List String) :
    ∀ reg, (regKeys reg).Nodup → (regKeys (ks.foldl (addCatcherKey compile) reg)).Nodup := by
  induction ks with
  | nil => exact fun reg h => h
  | cons k ks ih =>
    intro reg h
    exact ih _ (addCatcherKey_nodup compile reg k h)

theorem eraseP_keys_nodup (reg : Registry) (pc : String × PatEntry → Bool)
    (h : (regKeys reg).Nodup) : (regKeys (reg.eraseP pc)).Nodup :=
  h.sublist ((List.eraseP_sublist reg).map Prod.fst)

theorem foldl_removeKeyStep_nodup (args : List String) :
    ∀ (acc : Registry × List String), (regKeys acc.1).Nodup →
      (regKeys (args.foldl removeKeyStep acc).1).Nodup := by
  induction args with
  | nil => exact fun acc h => h
  | cons a as ih =>
    intro acc h
    refine ih _ ?_
    unfold removeKeyStep
    split
    · exact eraseP_keys_nodup _ _ h
    · exact h

theorem applyOp_eq_reindex (compile : String → Option Matcher) (reg : Registry)
    (op : RegOp) :
    ∃ r, applyOp compile reg op = reindex r
      ∧ ((regKeys reg).Nodup → (regKeys r).Nodup) := by
  cases op with
  | addPatterns ks =>
    exact ⟨ks.foldl (addCatcherKey compile) reg, rfl,
      fun h => foldl_addCatcherKey_nodup compile ks reg h⟩
  | removePatterns args =>
    exact ⟨(args.foldl removeKeyStep (reg, [])).1, rfl,
      fun h => foldl_removeKeyStep_nodup args (reg, []) h⟩

theorem foldl_applyOp_nodup (compile : String → Option Matcher) (ops : List RegOp) :
    ∀ reg, (regKeys reg).Nodup → (regKeys (ops.foldl (applyOp compile) reg)).Nodup := by
  induction ops with
  | nil => exact fun reg h => h
  | cons op ops ih =>
    intro reg h
    apply ih
    obtain ⟨r, hr, hnod⟩ := applyOp_eq_reindex compile reg op
    rw [hr, regKeys_reindex]
    exact hnod h

theorem runOps_shape (compile : String → Option Matcher) (ops : List RegOp)
    (hne : ops ≠ []) :
    ∃ r, (regKeys r).Nodup ∧ runOps compile ops = reindex r := by
  rcases List.eq_nil_or_concat ops with rfl | ⟨init, last, rfl⟩
  · exact absurd rfl hne
  · have hmid : (regKeys (init.foldl (applyOp compile) [])).Nodup :=
      foldl_applyOp_nodup compile init [] (by simp [regKeys])
    obtain ⟨r, hr, hnod⟩ := applyOp_eq_reindex compile (init.foldl (applyOp compile) []) last
    refine ⟨r, hnod hmid, ?_⟩
    rw [runOps, List.concat_eq_append, List.foldl_append]
    simpa using hr

theorem find?_eq_some_of_unique {α : Type} (pc : α → Bool) (l : List α) (a : α)
    (ha : a ∈ l) (hpa : pc a = true) (huniq : ∀ b ∈ l, pc b = true → b = a) :
    l.find? pc = some a := by
  induction l with
  | nil => cases ha
  | cons x xs ih =>
    by_cases hx : pc x = true
    · have hxa : x = a := huniq x (List.mem_cons_self x xs) hx
      rw [hxa]
      exact List.find?_cons_of_pos xs hpa
    · have hxa : x ≠ a := fun hh => hx (by rw [hh]; exact hpa)
      have ha' : a ∈ xs := by
        rcases List.mem_cons.mp ha with hh | hh
        · exact absurd hh.symm hxa
        · exact hh
      rw [List.find?_cons_of_neg xs (by simp [hx])]
      exact ih ha' (fun b hb hpb => huniq b (List.mem_cons_of_mem x hb) hpb)

theorem reindex_eq_self (reg : Registry) (h : ∀ p ∈ reg, p.2.index = rankOf reg p.1) :
    reindex reg = reg := by
  unfold reindex
  have hcongr : ∀ p ∈ reg,
      (p.1, (⟨rankOf reg p.1, p.2.pattern⟩ : PatEntry)) = id p := by
    intro p hp
    rw [← h p hp]
    rfl
  rw [List.map_congr_left hcongr, List.map_id]

end XTools

/-- C6: after any non-empty sequence of add and remove calls against an
initially empty catcher registry, the stored indexes are a permutation of
`{0..N-1}` (dense, no gaps or duplicates), and index order agrees with
the sorted order of the raw pattern keys: the renumbering is rebuilt
after every insert and every remove. -/
theorem registry_indexes_dense_sorted :
    ∀ (compile : String → Option XTools.Matcher) (ops : List XTools.RegOp),
      ops ≠ [] →
      ((XTools.runOps compile ops).map (fun p => p.2.index)).Perm
        (List.range (XTools.runOps compile ops).length)
      ∧ ∀ p ∈ XTools.runOps compile ops, ∀ q ∈ XTools.runOps compile ops,
          (p.1 < q.1 ↔ p.2.index < q.2.index) := by
  intro compile ops hne
  obtain ⟨r, hnod, hshape⟩ := XTools.runOps_shape compile ops hne
  rw [hshape]
  constructor
  · have hlen : (XTools.reindex r).length = r.length := by simp [XTools.reindex]
    rw [hlen]
    exact XTools.reindex_perm_range r hnod
  · exact XTools.reindex_order_iff r hnod

/-- C5: both bounded caches stay at or below 250 records under any
sequence of insertions; the ignored-message deque keeps exactly the last
250 records (inserting 251 into an empty deque leaves the 250 newest,
dropping the oldest), and the caught-message cache's eviction victim —
the first key of `sorted(keys, key=time)` — is an entry of the cache with
minimal stored timestamp. -/
theorem bounded_caches_capacity :
    (∀ msgs : List XTools.MsgRec,
        (msgs.foldl (XTools.dequeAppend 250) []).length ≤ 250)
    ∧ (∀ msgs : List XTools.MsgRec, msgs.length = 251 →
        msgs.foldl (XTools.dequeAppend 250) [] = msgs.tail)
    ∧ (∀ (host : XTools.Host) (fs : XTools.MsgFilters) (items : List XTools.MsgRec),
        ((items.foldl (fun c m => (XTools.add_caught_msg host fs c m).1) []).length ≤ 250))
    ∧ (∀ (e : Int × XTools.MsgRec) (rest : XTools.Caught),
        XTools.oldestEntry e rest ∈ e :: rest
        ∧ ∀ x ∈ e :: rest, (XTools.oldestEntry e rest).2.time ≤ x.2.time) := by
  refine ⟨?_, ?_, ?_, ?_⟩
  · intro msgs
    rw [XTools.dequeAppend_foldl_nil]
    simp only [List.length_drop]
    omega
  · intro msgs hlen
    rw [XTools.dequeAppend_foldl_nil, hlen]
    simp [List.drop_one]
  · intro host fs items
    exact XTools.caughtFold_length_le host fs items [] (by simp)
  · intro e rest
    exact XTools.oldestEntry_spec e rest

/-- C1: the caught-message id is a deterministic hash of the
markup-stripped (channel, participant, text) triple, so feeding two events
with an identical stripped triple through the Catch path inserts at most
one record — the two `add_caught_msg` calls never both report an
insertion, and after a successful first insertion the second call leaves
the cache unchanged. -/
theorem caught_insert_idempotent :
    ∀ (host : XTools.Host) (fs : XTools.MsgFilters) (caught : XTools.Caught)
      (m1 m2 : XTools.MsgRec),
      host.strip m1.channel = host.strip m2.channel →
      host.strip m1.nick = host.strip m2.nick →
      host.strip m1.msg = host.strip m2.msg →
      XTools.generate_msg_id host m1 = XTools.generate_msg_id host m2
      ∧ ((XTools.add_caught_msg host fs caught m1).2
          && (XTools.add_caught_msg host fs
                (XTools.add_caught_msg host fs caught m1).1 m2).2) = false
      ∧ ((XTools.add_caught_msg host fs caught m1).2 = true →
          (XTools.add_caught_msg host fs
              (XTools.add_caught_msg host fs caught m1).1 m2).1
            = (XTools.add_caught_msg host fs caught m1).1) := by
  intro host fs caught m1 m2 hc hn hm
  have hid : XTools.generate_msg_id host m1 = XTools.generate_msg_id host m2 := by
    unfold XTools.generate_msg_id
    rw [hc, hn, hm]
  refine ⟨hid, ?_⟩
  by_cases hf1 : XTools.is_filtered_msg host fs m1
  · have h1 : XTools.add_caught_msg host fs caught m1 = (caught, false) := by
      simp [XTools.add_caught_msg, hf1]
    rw [h1]
    constructor
    · simp
    · intro hb
      simp at hb
  · rcases hfind1 : caught.find? (fun e => e.1 == XTools.generate_msg_id host m1) with _ | e
    · have h1 : XTools.add_caught_msg host fs caught m1
          = ((if XTools.maxCaughtMsgs ≤ caught.length then XTools.eraseOldest caught else caught)
              ++ [(XTools.generate_msg_id host m1, m1)], true) := by
        simp [XTools.add_caught_msg, hf1, hfind1]
      rw [h1]
      have hmem : (XTools.generate_msg_id host m1, m1)
          ∈ (if XTools.maxCaughtMsgs ≤ caught.length then XTools.eraseOldest caught else caught)
            ++ [(XTools.generate_msg_id host m1, m1)] := by
        simp
      have hfind2 : (((if XTools.maxCaughtMsgs ≤ caught.length then XTools.eraseOldest caught else caught)
            ++ [(XTools.generate_msg_id host m1, m1)]).find?
              (fun e => e.1 == XTools.generate_msg_id host m2)).isSome := by
        rw [List.find?_isSome]
        exact ⟨(XTools.generate_msg_id host m1, m1), hmem, by simp [hid]⟩
      have h2 : XTools.add_caught_msg host fs
          ((if XTools.maxCaughtMsgs ≤ caught.length then XTools.eraseOldest caught else caught)
            ++ [(XTools.generate_msg_id host m1, m1)]) m2
          = ((if XTools.maxCaughtMsgs ≤ caught.length then XTools.eraseOldest caught else caught)
              ++ [(XTools.generate_msg_id host m1, m1)], false) := by
        by_cases hf2 : XTools.is_filtered_msg host fs m2
        · simp [XTools.add_caught_msg, hf2]
        · rcases hfx : ((if XTools.maxCaughtMsgs ≤ caught.length then XTools.eraseOldest caught else caught)
              ++ [(XTools.generate_msg_id host m1, m1)]).find?
                (fun e => e.1 == XTools.generate_msg_id host m2) with _ | e2
          · rw [hfx] at hfind2
            simp at hfind2
          · simp [XTools.add_caught_msg, hf2, hfx]
      constructor
      · rw [h2]
        rfl
      · intro _
        rw [h2]
    · have h1 : XTools.add_caught_msg host fs caught m1 = (caught, false) := by
        simp [XTools.add_caught_msg, hf1, hfind1]
      rw [h1]
      constructor
      · simp
      · intro hb
        simp at hb

/-- Witness for C1: replaying the same concrete event twice inserts only
once. -/
theorem caught_insert_idempotent_witness :
    ((XTools.add_caught_msg witnessHost ⟨[], []⟩ [] witnessMsg).2
      && (XTools.add_caught_msg witnessHost ⟨[], []⟩
            (XTools.add_caught_msg witnessHost ⟨[], []⟩ [] witnessMsg).1 witnessMsg).2) = false :=
  (caught_insert_idempotent witnessHost ⟨[], []⟩ [] witnessMsg witnessMsg rfl rfl rfl).2.1

/-- C2: an event whose participant name matches an ignored-participants
pattern is classified Ignored: the pipeline returns `EAT_ALL` (the event
never reaches the display surface), a message record carrying the event's
nick, channel and text is appended to the ignored-message ring buffer, and
every other piece of state — in particular the caught-message cache, even
when the text matches a catcher — is left untouched. -/
theorem ignore_check_suppresses :
    ∀ (host : XTools.Host) (ctx : XTools.Ctx) (st : XTools.ChanState)
      (nick : String) (rest : List String) (userdata : String),
      (∃ p ∈ st.ignored_nicks, (p.2.pattern nick).isSome) →
      (XTools.filter_chanmsg host ctx st nick rest userdata).2 = XTools.Eat.ALL
      ∧ (XTools.filter_chanmsg host ctx st nick rest userdata).1.caught_msgs = st.caught_msgs
      ∧ (XTools.filter_chanmsg host ctx st nick rest userdata).1.ignored_nicks = st.ignored_nicks
      ∧ (XTools.filter_chanmsg host ctx st nick rest userdata).1.msg_catchers = st.msg_catchers
      ∧ (XTools.filter_chanmsg host ctx st nick rest userdata).1.msg_filters = st.msg_filters
      ∧ ∃ m : XTools.MsgRec,
          (XTools.filter_chanmsg host ctx st nick rest userdata).1.ignored_msgs
            = XTools.dequeAppend XTools.maxCaughtMsgs st.ignored_msgs m
          ∧ m.nick = nick ∧ m.channel = ctx.chan ∧ m.msg = XTools.cleanMsg rest := by
  intro host ctx st nick rest ud hex
  have hs : (st.ignored_nicks.find? (fun p => (p.2.pattern nick).isSome)).isSome := by
    rw [List.find?_isSome]
    obtain ⟨p, hp, hps⟩ := hex
    exact ⟨p, hp, by simpa using hps⟩
  rcases hfind : st.ignored_nicks.find? (fun p => (p.2.pattern nick).isSome) with _ | p
  · rw [hfind] at hs
    simp at hs
  · have hres : XTools.filter_chanmsg host ctx st nick rest ud = ({ st with ignored_msgs := XTools.dequeAppend XTools.maxCaughtMsgs st.ignored_msgs (XTools.add_message ctx nick (XTools.cleanMsg rest) ud (XTools.searchList p.2.pattern nick) "nick") }, XTools.Eat.ALL) := by
      simp only [XTools.filter_chanmsg, hfind]
    rw [hres]
    refine ⟨rfl, rfl, rfl, rfl, rfl, ?_⟩
    exact ⟨_, rfl, rfl, rfl, rfl⟩

/-- Witness for C2: the `"spammer99"` scenario event is eaten and the
caught cache stays empty even though the text matches the catcher. -/
theorem ignore_check_suppresses_witness :
    (XTools.filter_chanmsg witnessHost witnessCtx witnessIgnoreState "spammer99" ["ab"]
        "Channel Message").2 = XTools.Eat.ALL
    ∧ (XTools.filter_chanmsg witnessHost witnessCtx witnessIgnoreState "spammer99" ["ab"]
        "Channel Message").1.caught_msgs = witnessIgnoreState.caught_msgs :=
  ⟨(ignore_check_suppresses witnessHost witnessCtx witnessIgnoreState "spammer99" ["ab"]
      "Channel Message" ⟨("^spam.*", ⟨0, witnessPrefM "spam"⟩), by
        simp [witnessIgnoreState, witnessIgnoreReg], by decide⟩).1,
   (ignore_check_suppresses witnessHost witnessCtx witnessIgnoreState "spammer99" ["ab"]
      "Channel Message" ⟨("^spam.*", ⟨0, witnessPrefM "spam"⟩), by
        simp [witnessIgnoreState, witnessIgnoreReg], by decide⟩).2.1⟩

/-- C3: an event that is not ignored but whose participant matches a
nick-filter pattern or whose text matches a content-filter pattern is
excluded from catching — the caught-message cache is unchanged even when
the text matches a catcher — while the event itself is passed through to
the normal display path (`EAT_NONE`) and nothing is added to the ignored
cache. -/
theorem filter_check_excludes :
    ∀ (host : XTools.Host) (ctx : XTools.Ctx) (st : XTools.ChanState)
      (nick : String) (rest : List String) (userdata : String),
      (∀ p ∈ st.ignored_nicks, p.2.pattern nick = none) →
      ((∃ p ∈ st.msg_filters.nicks,
          (p.2.pattern (XTools.remove_mirc_color host nick)).isSome)
        ∨ (∃ p ∈ st.msg_filters.filters,
            (p.2.pattern (XTools.cleanMsg rest)).isSome)) →
      (XTools.filter_chanmsg host ctx st nick rest userdata).2 = XTools.Eat.NONE
      ∧ (XTools.filter_chanmsg host ctx st nick rest userdata).1.caught_msgs = st.caught_msgs
      ∧ (XTools.filter_chanmsg host ctx st nick rest userdata).1.ignored_msgs = st.ignored_msgs := by
  intro host ctx st nick rest ud hno hfil
  have hignone : st.ignored_nicks.find? (fun p => (p.2.pattern nick).isSome) = none := by
    rw [List.find?_eq_none]
    intro p hp
    simp [hno p hp]
  rcases hcatch : st.msg_catchers.find? (fun p => (p.2.pattern (XTools.cleanMsg rest)).isSome) with _ | p
  · simp [XTools.filter_chanmsg, hignone, hcatch]
  · set r := XTools.add_message ctx nick (XTools.cleanMsg rest) ud
        (XTools.searchList p.2.pattern (XTools.cleanMsg rest)) "nick" with hr
    have hrn : r.nick = nick := rfl
    have hrm : r.msg = XTools.cleanMsg rest := rfl
    have hrecfil : XTools.is_filtered_msg host st.msg_filters r = true := by
      unfold XTools.is_filtered_msg
      rw [hrn, hrm]
      rcases hfil with ⟨q, hq, hqs⟩ | ⟨q, hq, hqs⟩
      · have hany : st.msg_filters.nicks.any
            (fun p => (p.2.pattern (XTools.remove_mirc_color host nick)).isSome) = true := by
          rw [List.any_eq_true]
          exact ⟨q, hq, by simpa using hqs⟩
        rw [hany, Bool.true_or]
      · have hany : st.msg_filters.filters.any
            (fun p => (p.2.pattern (XTools.cleanMsg rest)).isSome) = true := by
          rw [List.any_eq_true]
          exact ⟨q, hq, by simpa using hqs⟩
        rw [hany, Bool.or_true]
    have hadd : XTools.add_caught_msg host st.msg_filters st.caught_msgs r
        = (st.caught_msgs, false) := by
      simp [XTools.add_caught_msg, hrecfil]
    have hres : XTools.filter_chanmsg host ctx st nick rest ud = ({ st with caught_msgs := (XTools.add_caught_msg host st.msg_filters st.caught_msgs r).1 }, XTools.Eat.NONE) := by
      simp only [XTools.filter_chanmsg, hignone, hcatch, ← hr]
    rw [hres, hadd]
    exact ⟨rfl, rfl, rfl⟩

/-- Witness for C3: the `"this is urgent test"` scenario event matches
the catcher and the filter; nothing is caught and the event passes
through. -/
theorem filter_check_excludes_witness :
    (XTools.filter_chanmsg witnessHost witnessCtx witnessFilterState "joe"
        ["this", "is", "urgent", "test"] "Channel Message").2 = XTools.Eat.NONE
    ∧ (XTools.filter_chanmsg witnessHost witnessCtx witnessFilterState "joe"
        ["this", "is", "urgent", "test"] "Channel Message").1.caught_msgs
      = witnessFilterState.caught_msgs :=
  ⟨(filter_check_excludes witnessHost witnessCtx witnessFilterState "joe"
      ["this", "is", "urgent", "test"] "Channel Message" (by simp [witnessFilterState])
      (Or.inr ⟨("test", ⟨0, witnessSubstrM "test"⟩), by simp [witnessFilterState], by decide⟩)).1,
   (filter_check_excludes witnessHost witnessCtx witnessFilterState "joe"
      ["this", "is", "urgent", "test"] "Channel Message" (by simp [witnessFilterState])
      (Or.inr ⟨("test", ⟨0, witnessSubstrM "test"⟩), by simp [witnessFilterState], by decide⟩)).2.1⟩

theorem find?_first {α : Type} (pc : α → Bool) (l₁ l₂ : List α) (a : α)
    (h1 : ∀ q ∈ l₁, pc q = false) (ha : pc a = true) :
    (l₁ ++ a :: l₂).find? pc = some a := by
  induction l₁ with
  | nil => simpa using List.find?_cons_of_pos l₂ ha
  | cons b bs ih =>
    have hb : pc b = false := h1 b (List.mem_cons_self b bs)
    have hstep : ((b :: bs) ++ a :: l₂).find? pc = (bs ++ a :: l₂).find? pc := by
      simpa using List.find?_cons_of_neg (bs ++ a :: l₂) (by simp [hb])
    rw [hstep]
    exact ih (fun q hq => h1 q (List.mem_cons_of_mem b hq))

/-- Counterexample to C4: after adding catchers `"b"` then `"a"`, the
sorted renumbering stores index 0 on `"a"` and 1 on `"b"`, yet on a
message matching both patterns the pipeline records `"b"`'s match (dict
insertion order), while consulting the registry in ascending index order
— the spec-mandated `filter_chanmsg_specOrder` — would record `"a"`'s
match: the pipeline does NOT try patterns in ascending index order. -/
theorem pipeline_index_order_counterexample :
    cx4reg.map (fun p => (p.1, p.2.index)) = [("b", 1), ("a", 0)]
    ∧ (XTools.filter_chanmsg witnessHost witnessCtx cx4st "n" ["ab"]
        "Channel Message").1.caught_msgs.map (fun e => e.2.matchlist) = [["b"]]
    ∧ (XTools.filter_chanmsg_specOrder witnessHost witnessCtx cx4st "n" ["ab"]
        "Channel Message").1.caught_msgs.map (fun e => e.2.matchlist) = [["a"]]
    ∧ (XTools.filter_chanmsg witnessHost witnessCtx cx4st "n" ["ab"]
          "Channel Message").1.caught_msgs.map (fun e => e.2.matchlist)
      ≠ (XTools.filter_chanmsg_specOrder witnessHost witnessCtx cx4st "n" ["ab"]
          "Channel Message").1.caught_msgs.map (fun e => e.2.matchlist) := by
  refine ⟨?_, ?_, ?_, ?_⟩ <;> decide

/-- C4 (amended): within each registry the pipeline tries the patterns in
the registry's stored dict (insertion) order — not ascending index order —
and the first matching pattern wins: if every earlier entry of the stored
order fails and entry `p` matches, the outcome is computed from `p` alone,
for the ignore loop and for the catch loop alike. -/
theorem pipeline_first_match_stored_order :
    (∀ (host : XTools.Host) (ctx : XTools.Ctx) (st : XTools.ChanState)
        (nick : String) (rest : List String) (ud : String)
        (l₁ : XTools.Registry) (p : String × XTools.PatEntry) (l₂ : XTools.Registry),
      st.ignored_nicks = l₁ ++ p :: l₂ →
      (∀ q ∈ l₁, q.2.pattern nick = none) →
      (p.2.pattern nick).isSome →
      XTools.filter_chanmsg host ctx st nick rest ud = ({ st with ignored_msgs := XTools.dequeAppend XTools.maxCaughtMsgs st.ignored_msgs (XTools.add_message ctx nick (XTools.cleanMsg rest) ud (XTools.searchList p.2.pattern nick) "nick") }, XTools.Eat.ALL))
    ∧ (∀ (host : XTools.Host) (ctx : XTools.Ctx) (st : XTools.ChanState)
        (nick : String) (rest : List String) (ud : String)
        (l₁ : XTools.Registry) (p : String × XTools.PatEntry) (l₂ : XTools.Registry),
      (∀ q ∈ st.ignored_nicks, q.2.pattern nick = none) →
      st.msg_catchers = l₁ ++ p :: l₂ →
      (∀ q ∈ l₁, q.2.pattern (XTools.cleanMsg rest) = none) →
      (p.2.pattern (XTools.cleanMsg rest)).isSome →
      XTools.filter_chanmsg host ctx st nick rest ud = ({ st with caught_msgs := (XTools.add_caught_msg host st.msg_filters st.caught_msgs (XTools.add_message ctx nick (XTools.cleanMsg rest) ud (XTools.searchList p.2.pattern (XTools.cleanMsg rest)) "nick")).1 }, XTools.Eat.NONE)) := by
  constructor
  · intro host ctx st nick rest ud l₁ p l₂ hsplit h1 hp
    have hfind : st.ignored_nicks.find? (fun q => (q.2.pattern nick).isSome) = some p := by
      rw [hsplit]
      exact find?_first _ l₁ l₂ p (fun q hq => by simp [h1 q hq]) (by simpa using hp)
    simp only [XTools.filter_chanmsg, hfind]
  · intro host ctx st nick rest ud l₁ p l₂ hno hsplit h1 hp
    have hignone : st.ignored_nicks.find? (fun q => (q.2.pattern nick).isSome) = none := by
      rw [List.find?_eq_none]
      intro q hq
      simp [hno q hq]
    have hfind : st.msg_catchers.find? (fun q => (q.2.pattern (XTools.cleanMsg rest)).isSome) = some p := by
      rw [hsplit]
      exact find?_first _ l₁ l₂ p (fun q hq => by simp [h1 q hq]) (by simpa using hp)
    simp only [XTools.filter_chanmsg, hignone, hfind]

/-- Witness for the amended C4: on a message matching only the second
stored catcher, the first-match characterization applies with the earlier
entry failing, and the caught record carries the second catcher's match
list. -/
theorem pipeline_first_match_stored_order_witness :
    (XTools.filter_chanmsg witnessHost witnessCtx witnessOrderState "n" ["y"]
        "Channel Message").1.caught_msgs.map (fun e => e.2.matchlist) = [["y"]] := by
  rw [pipeline_first_match_stored_order.2 witnessHost witnessCtx witnessOrderState "n"
      ["y"] "Channel Message" [("x", ⟨0, witnessSubstrM "x"⟩)] ("y", ⟨1, witnessSubstrM "y"⟩) []
      (by simp [witnessOrderState]) rfl (by decide) (by decide)]
  decide

/-- C10: the `--clear` branch of the catcher-filter command calls
`clear_filters()` with its default argument, so whatever the `--nicks`
flag says, the nick-filter registry is untouched and the message-filter
registry ends up empty. -/
theorem catchfilter_clear_ignores_nicks_flag :
    ∀ (compile : String → Option XTools.Matcher) (catchersLen : Nat)
      (a : XTools.CFArgs) (st : XTools.MsgFilters),
      a.help = false → a.clear = true →
      (XTools.cmd_catchfilter compile catchersLen a st).nicks = st.nicks
      ∧ (XTools.cmd_catchfilter compile catchersLen a st).filters = [] := by
  intro compile n a st hh hc
  have h1 : XTools.cmd_catchfilter compile n a st = (XTools.clear_filters st false).1 := by
    simp [XTools.cmd_catchfilter, hh, hc]
  rw [h1]
  unfold XTools.clear_filters
  by_cases he : st.filters.isEmpty
  · have hf : st.filters = [] := by simpa using he
    constructor
    · simp [he]
    · simp [he, hf]
  · constructor
    · simp [he]
    · simp [he]

/-- Witness for C10: clearing with the nicks flag set empties the
message-filter registry and leaves the nick-filter registry alone. -/
theorem catchfilter_clear_ignores_nicks_flag_witness :
    (XTools.cmd_catchfilter cx4compile 0 witnessCF witnessFS).nicks = witnessFS.nicks
    ∧ (XTools.cmd_catchfilter cx4compile 0 witnessCF witnessFS).filters = [] :=
  catchfilter_clear_ignores_nicks_flag cx4compile 0 witnessCF witnessFS rfl rfl

/-- Witness for C6: a concrete non-empty operation sequence (adding
catchers `"b"` then `"a"`) yields dense indexes in sorted key order. -/
theorem registry_indexes_dense_sorted_witness :
    ((XTools.runOps cx4compile [XTools.RegOp.addPatterns ["b", "a"]]).map
        (fun p => p.2.index)).Perm
      (List.range (XTools.runOps cx4compile [XTools.RegOp.addPatterns ["b", "a"]]).length)
    ∧ ∀ p ∈ XTools.runOps cx4compile [XTools.RegOp.addPatterns ["b", "a"]],
        ∀ q ∈ XTools.runOps cx4compile [XTools.RegOp.addPatterns ["b", "a"]],
          (p.1 < q.1 ↔ p.2.index < q.2.index) :=
  registry_indexes_dense_sorted cx4compile [XTools.RegOp.addPatterns ["b", "a"]]
    (List.cons_ne_nil _ _)

/-- Counterexample to C7: with keys `"2"`, `"b"`, `"c"` registered,
pattern `"b"` has display index 2, yet removing by `"2"` (its display
index) removes the pattern whose literal KEY is `"2"`, not `"b"` —
`get_key` prefers the literal-key reading, so remove-by-display-index and
remove-by-key are not equivalent for `"b"`. -/
theorem remove_by_index_counterexample :
    (cx7reg.find? (fun p => p.1 == "b")).map (fun p => p.2.index) = some 1
    ∧ (XTools.remove_catcher cx7reg ["b"]).2 = ["b"]
    ∧ (XTools.remove_catcher cx7reg ["2"]).2 = ["2"]
    ∧ XTools.regKeys (XTools.remove_catcher cx7reg ["b"]).1 = ["2", "c"]
    ∧ XTools.regKeys (XTools.remove_catcher cx7reg ["2"]).1 = ["b", "c"]
    ∧ XTools.regKeys (XTools.remove_catcher cx7reg ["2"]).1
      ≠ XTools.regKeys (XTools.remove_catcher cx7reg ["b"]).1 := by
  refine ⟨?_, ?_, ?_, ?_, ?_, ?_⟩ <;> decide

/-- C7 (amended): removing a registered pattern by its literal key and by
its 1-based display index are equivalent in effect — same removed item,
same resulting registry — PROVIDED the decimal string of that display
index is not itself a key of the registry (the literal-key reading takes
precedence); and when the argument resolves to neither a key nor a valid
1-based index, remove reports not-found and changes nothing. -/
theorem remove_by_key_or_index :
    (∀ (reg : XTools.Registry) (k : String) (e : XTools.PatEntry) (s : String),
      (XTools.regKeys reg).Nodup →
      (∀ p ∈ reg, p.2.index = XTools.rankOf reg p.1) →
      (k, e) ∈ reg →
      XTools.pyInt? s = some ((e.index : Int) + 1) →
      s ∉ XTools.regKeys reg →
      XTools.remove_catcher reg [s] = XTools.remove_catcher reg [k]
      ∧ (XTools.remove_catcher reg [s]).2 = [k])
    ∧ (∀ (reg : XTools.Registry) (a : String),
      (∀ p ∈ reg, p.2.index = XTools.rankOf reg p.1) →
      XTools.get_key reg a = none →
      XTools.remove_catcher reg [a] = (reg, [])) := by
  constructor
  · intro reg k e s hnod hidx hmem hint hnots
    have hkmem : k ∈ XTools.regKeys reg := List.mem_map_of_mem Prod.fst hmem
    have hck : XTools.get_key reg k = some k := by
      unfold XTools.get_key
      simp [hkmem]
    have hpk : ((e.index : Int) == (e.index : Int)) = true := by simp
    have hfind : reg.find? (fun p => ((p.2.index : Int) == (e.index : Int)))
        = some (k, e) := by
      apply XTools.find?_eq_some_of_unique _ _ _ hmem hpk
      intro b hb hpb
      have hbi : b.2.index = e.index := by
        have hbi' : (b.2.index : Int) = (e.index : Int) := by
          simpa using hpb
        exact_mod_cast hbi'
      have hbmem : b.1 ∈ XTools.regKeys reg := List.mem_map_of_mem Prod.fst hb
      have hkb : b.1 = k := by
        apply XTools.rankOf_inj reg hnod b.1 k hbmem hkmem
        rw [← hidx b hb, ← hidx (k, e) hmem]
        exact hbi
      exact List.inj_on_of_nodup_map hnod hb hmem hkb
    have hcs : XTools.get_key reg s = some k := by
      unfold XTools.get_key
      simp [hnots, hint, hfind]
    constructor
    · unfold XTools.remove_catcher
      simp [XTools.removeKeyStep, hcs, hck]
    · unfold XTools.remove_catcher
      simp [XTools.removeKeyStep, hcs]
  · intro reg a hidx hget
    unfold XTools.remove_catcher
    simp [XTools.removeKeyStep, hget, XTools.reindex_eq_self reg hidx]

/-- Witness for the amended C7: removing by the display-index string
`"2"` removes exactly the pattern `"c"`, as removing by key does. -/
theorem remove_by_key_or_index_witness :
    (XTools.remove_catcher cx7aReg ["2"]).2 = ["c"] :=
  (remove_by_key_or_index.1 cx7aReg "c" ⟨1, witnessSubstrM "c"⟩ "2" (by decide)
    (by decide) (List.Mem.tail _ (List.Mem.head _)) (by decide) (by decide)).2

/-- C8: the recursion guard flag is set before the host is asked to
redisplay and cleared immediately after the call returns; while it is
set, any event delivered to the filter is passed through untouched
(`EAT_NONE`, state unchanged, nothing emitted); consequently a
re-delivery of the emitted event back into `message_filter` during the
emission leaves the state exactly as before, with only the flag cleared —
an annotated message never re-triggers the pipeline on its own output. -/
theorem recursion_guard_brackets_emission :
    (∀ (hostEmit : XHighlights.HLState → XHighlights.HLState) (ctx : XHighlights.Ctx)
        (st : XHighlights.HLState) (ev : XHighlights.Ev),
      st.emitting = true →
      XHighlights.message_filter hostEmit ctx st ev = ⟨st, XTools.Eat.NONE, none, false⟩)
    ∧ (∀ (hostEmit : XHighlights.HLState → XHighlights.HLState)
        (st : XHighlights.HLState) (args : List String),
      (XHighlights.emit_highlighted hostEmit st args).state.emitting = false
      ∧ (XHighlights.emit_highlighted hostEmit st args).eat = XTools.Eat.ALL
      ∧ (XHighlights.emit_highlighted hostEmit st args).emitted = some args)
    ∧ (∀ (hostEmit2 : XHighlights.HLState → XHighlights.HLState) (ctx : XHighlights.Ctx)
        (st : XHighlights.HLState) (ev2 : XHighlights.Ev) (args : List String),
      XHighlights.emit_highlighted
          (fun s => (XHighlights.message_filter hostEmit2 ctx s ev2).state) st args
        = ⟨{ st with emitting := false }, XTools.Eat.ALL, some args, false⟩) := by
  refine ⟨?_, ?_, ?_⟩
  · intro hostEmit ctx st ev h
    simp [XHighlights.message_filter, h]
  · intro hostEmit st args
    exact ⟨rfl, rfl, rfl⟩
  · intro hostEmit2 ctx st ev2 args
    rfl

/-- Witness for C8: with the flag set, a concrete event passes through
untouched. -/
theorem recursion_guard_brackets_emission_witness :
    XHighlights.message_filter id witnessHCtx witnessHLState witnessEv
      = ⟨witnessHLState, XTools.Eat.NONE, none, false⟩ :=
  recursion_guard_brackets_emission.1 id witnessHCtx witnessHLState witnessEv rfl

/-- C9 (amended): a message is re-emitted iff the word-processing loop
completes without an uncaught template-format error AND at least one
token triggered a highlight rule (custom-pattern match, link match, or
nick match); when the loop completes with no token triggering, the
filter returns the unchanged signal (`EAT_NONE`, nothing emitted, state
untouched), and when a simple-branch template format fails the exception
escapes the callback — nothing is emitted, the state is unchanged, and
the host renders the original event.  Neither direction of the claim's
"re-emitted iff some token changed" survives: a guarded format failure
re-emits an unchanged message, and an unguarded one suppresses
re-emission despite a triggered token. -/
theorem reemit_iff_token_triggered :
    ∀ (hostEmit : XHighlights.HLState → XHighlights.HLState) (ctx : XHighlights.Ctx)
      (st : XHighlights.HLState) (ev : XHighlights.Ev),
      st.emitting = false →
      (((XHighlights.message_filter hostEmit ctx st ev).emitted).isSome
        ↔ ∃ toks, XHighlights.mfTokens ctx st ev = some toks ∧ ∃ t ∈ toks, t.2 = true)
      ∧ (XHighlights.mfTokens ctx st ev = none →
          XHighlights.message_filter hostEmit ctx st ev = ⟨st, XTools.Eat.NONE, none, true⟩)
      ∧ (∀ toks, XHighlights.mfTokens ctx st ev = some toks →
          (∀ t ∈ toks, t.2 = false) →
          XHighlights.message_filter hostEmit ctx st ev = ⟨st, XTools.Eat.NONE, none, false⟩) := by
  intro hostEmit ctx st ev hemit
  rcases htoks : XHighlights.mfTokens ctx st ev with _ | toks
  · have hres : XHighlights.message_filter hostEmit ctx st ev
        = ⟨st, XTools.Eat.NONE, none, true⟩ := by
      unfold XHighlights.message_filter
      rw [hemit, htoks]
      rfl
    refine ⟨?_, fun _ => hres, ?_⟩
    · rw [hres]
      simp
    · intro toks' htoks' _
      exact absurd htoks' (by simp)
  · have hmain : (XHighlights.message_filter hostEmit ctx st ev).emitted.isSome
        = toks.any Prod.snd := by
      unfold XHighlights.message_filter
      rw [hemit, htoks]
      by_cases hany : toks.any Prod.snd
      · simp [hany, XHighlights.emit_highlighted]
      · simp [hany]
    refine ⟨?_, ?_, ?_⟩
    · rw [show (((XHighlights.message_filter hostEmit ctx st ev).emitted).isSome = true)
          = (toks.any Prod.snd = true) from congrArg (· = true) hmain]
      constructor
      · intro hany
        exact ⟨toks, rfl, by simpa using List.any_eq_true.mp hany⟩
      · rintro ⟨toks', htoks', ht⟩
        injection htoks' with heq
        subst heq
        exact List.any_eq_true.mpr (by simpa using ht)
    · intro hnone
      exact absurd hnone (by simp)
    · intro tks htks hall
      injection htks with heq
      subst heq
      have hany : toks.any Prod.snd = false := by
        rw [List.any_eq_false]
        intro t ht
        simp [hall t ht]
      unfold XHighlights.message_filter
      rw [hemit, htoks]
      simp [hany]

/-- Counterexample to C9: the custom pattern matches the token, its
guarded named-branch format fails, `highlight_custom` returns the token
UNCHANGED — yet the highlighted flag is raised and the identical message
is re-emitted (`EAT_ALL`), so re-emission does not imply a changed
token. -/
theorem reemit_unchanged_counterexample :
    (XHighlights.message_filter id witnessHCtx cx9st cx9ev).emitted
      = some ["Channel Message", "alice", "x"]
    ∧ XHighlights.mfTokens witnessHCtx cx9st cx9ev = some [("x", true)]
    ∧ (XHighlights.mfTokens witnessHCtx cx9st cx9ev).map
        (fun toks => String.intercalate " " (toks.map Prod.fst)) = some cx9ev.msg
    ∧ (XHighlights.message_filter id witnessHCtx cx9st cx9ev).eat = XTools.Eat.ALL := by
  refine ⟨?_, ?_, ?_, ?_⟩ <;> decide

/-- Witness for the amended C9, both ways: the event text `"hi"` triggers
a rewriting custom rule, so the iff instantiates at a completing loop
with a triggering token; and on the group-less `"{b}"` pattern the loop
aborts (`mfTokens = none`), in which case the filter emits nothing and
leaves the state unchanged. -/
theorem reemit_iff_token_triggered_witness :
    (((XHighlights.message_filter id witnessHCtx witnessHL9 witnessEv).emitted).isSome
      ↔ ∃ toks, XHighlights.mfTokens witnessHCtx witnessHL9 witnessEv = some toks
          ∧ ∃ t ∈ toks, t.2 = true)
    ∧ XHighlights.message_filter id witnessHCtx cx9crashSt cx9ev
        = ⟨cx9crashSt, XTools.Eat.NONE, none, true⟩ :=
  ⟨(reemit_iff_token_triggered id witnessHCtx witnessHL9 witnessEv rfl).1,
   (reemit_iff_token_triggered id witnessHCtx cx9crashSt cx9ev rfl).2.1 (by decide)⟩

/-- Witness for C5: the ring-buffer part applied to a concrete list of
251 records. -/
theorem bounded_caches_capacity_witness :
    witnessMsgs251.foldl (XTools.dequeAppend 250) [] = witnessMsgs251.tail :=
  bounded_caches_capacity.2.1 witnessMsgs251 (by simp [witnessMsgs251])
